import Mathlib

/-!
Verification of the chest-hunt expected-value solver
(`src/idle_slayer_chest_hunt.py`).

The Python module computes, by memoized recursion, the expected loot,
perfect-hunt probability and expected armory chests of the chest-hunt
mini-game.  We embed the state type `CH`, the value vector `CHValue`,
the transition `CH.next`, the chance model `CH.chance`, the stop rule
and the recursive solver `calculate_value` shallowly in Lean.

Modelling notes:
* The Python code stores `chests`/`mimics` as `Decimal` but only ever
  adds or subtracts integers to them and every entry point passes
  integers, so they are embedded as `ℤ`; the remaining counters are
  Python `int` (`ℤ` here) and the flags are `Bool`.
* `Decimal` arithmetic on the value vector is modelled by exact `ℚ`
  arithmetic.
* The constant `ARMORY_RATE = 0.005` is a Python binary float; its
  exact value, and the exact value of the float subtraction
  `1 - 0.005`, are reproduced below as rationals.
* The process-wide memo dictionary `CH.solved` becomes an explicit
  association list threaded through the solver, and the recursion gets
  a fuel parameter (it is proved total for fuel exceeding `chests`).
* The solver additionally records two ghost observations that several
  spec sentences are about: `calls`, the number of invocations of the
  transition function `CH.next`, and `ok`, whether every denominator
  used by the chance formulas was positive.
-/

/-- Chest kinds (Python class `CHType`). -/
inductive CHType
  | LOOT
  | MIMIC
  | SAVER
  | DOUBLER
deriving DecidableEq

/-- Chest-hunt state (Python class `CH`), with the attributes in the
order `__init__` assigns them; `chase` is derived by the constructor
but stored as an ordinary attribute (and mutated by `next`). -/
structure CH where
  chests : ℤ
  mimics : ℤ
  savers : ℤ
  saves : ℤ
  ad : Bool
  csaves : ℤ
  doublers : ℤ
  doubles : ℤ
  dd : Bool
  perfect : Bool
  armory : Bool
  chase : Bool
deriving DecidableEq

/-- Value vector (Python class `CHValue`). -/
structure CHValue where
  loot : ℚ
  perfect : ℚ
  armory : ℚ
deriving DecidableEq

/-- Python `CHValue.__add__`: componentwise addition. -/
def CHValue.add (v w : CHValue) : CHValue :=
  ⟨v.loot + w.loot, v.perfect + w.perfect, v.armory + w.armory⟩

/-- Python `CHValue.__mul__` and `__rmul__`: scaling by a scalar. -/
def CHValue.smul (q : ℚ) (v : CHValue) : CHValue :=
  ⟨q * v.loot, q * v.perfect, q * v.armory⟩

/-- Python `CH.__init__`: when more than one doubler is requested the
constructor forces `dd := true` and `perfect := false`, and in every
case it sets `chase` to the (possibly overridden) `perfect`. -/
def CH.make (chests mimics savers saves : ℤ) (ad : Bool) (csaves doublers doubles : ℤ)
    (dd perfect armory : Bool) : CH :=
  let dd2 : Bool := if 1 < doublers then true else dd
  let perfect2 : Bool := if 1 < doublers then false else perfect
  { chests := chests, mimics := mimics, savers := savers, saves := saves, ad := ad,
    csaves := csaves, doublers := doublers, doubles := doubles, dd := dd2,
    perfect := perfect2, armory := armory, chase := perfect2 }

/-- Python `1 if self.doublers > 0 else 0`, as used by `stop`, `_chance_doubler`
and `_chance_loot`. -/
def CH.activeDoublers (s : CH) : ℤ := if 0 < s.doublers then 1 else 0

/-- Python `self.chests - (self.savers if self.ad else 0)`: the denominator used
by `_chance_doubler`, `_chance_mimic` and `_chance_loot`. -/
def CH.effChests (s : CH) : ℤ := s.chests - (if s.ad = true then s.savers else 0)

/-- Python `CH.chance`: probability of drawing each chest kind.  Division is
`ℚ` division (the claims about it carry nonzero-denominator
hypotheses; positivity of every used denominator is proved from the
solver's guards). -/
def CH.chance (s : CH) (k : CHType) : ℚ :=
  match k with
  | CHType.LOOT =>
      ((s.effChests - s.mimics - (if s.ad = true then 0 else s.savers) -
          s.activeDoublers : ℤ) : ℚ) / (s.effChests : ℚ)
  | CHType.MIMIC => (s.mimics : ℚ) / (s.effChests : ℚ)
  | CHType.SAVER => (s.savers : ℚ) / (s.chests : ℚ)
  | CHType.DOUBLER => (s.activeDoublers : ℚ) / (s.effChests : ℚ)

/-- Python `CH.next`: state after opening a chest of kind `k`.  All the
right-hand sides read the pre-state `s`, exactly as the Python method
reads `self` after copying it into `ch`. -/
def CH.next (s : CH) (k : CHType) : CH :=
  let base : CH :=
    { s with chests := s.chests - 1,
             csaves := if 0 < s.csaves then s.csaves - 1 else s.csaves }
  match k with
  | CHType.LOOT =>
      { base with doubles := if 0 < s.doubles then s.doubles - 1 else s.doubles }
  | CHType.MIMIC =>
      { base with mimics := s.mimics - 1,
                  saves := if s.csaves ≤ 0 then s.saves - 1 else s.saves }
  | CHType.SAVER =>
      { base with savers := s.savers - 1,
                  saves := if s.dd = false ∧ 0 < s.doubles then s.saves + 2 else s.saves + 1,
                  doubles := if s.dd = false ∧ 0 < s.doubles then s.doubles - 1 else s.doubles }
  | CHType.DOUBLER =>
      { base with doublers := s.doublers - 1,
                  doubles := s.doubles + 1,
                  chase := if 1 < s.csaves ∧ s.ad = true ∧ s.dd = false then !s.perfect
                           else s.chase }

/-- The memo dictionary `CH.solved`, as an association list; equality of
keys is the full twelve-field structural equality, as in Python. -/
abbrev Cache := List (CH × CHValue)

/-- Dictionary lookup. -/
def cacheGet : Cache → CH → Option CHValue
  | [], _ => none
  | (t, v) :: c, s => if t = s then some v else cacheGet c s

/-- Dictionary insertion (`CH.solved[ch] = value`). -/
def cacheAdd (c : Cache) (s : CH) (v : CHValue) : Cache := (s, v) :: c

/-- The state-only part of `CH.stop`:
`nonloot >= self.chests or self.chests <= 0`. -/
def CH.defaultStop (s : CH) : Prop :=
  s.chests ≤ s.mimics + s.savers + s.activeDoublers ∨ s.chests ≤ 0

instance (s : CH) : Decidable s.defaultStop :=
  inferInstanceAs (Decidable (s.chests ≤ s.mimics + s.savers + s.activeDoublers ∨ s.chests ≤ 0))

/-- Python `CH.stop`: `self in CH.solved or default`. -/
def stopped (c : Cache) (s : CH) : Prop :=
  (cacheGet c s).isSome = true ∨ s.defaultStop

instance (c : Cache) (s : CH) : Decidable (stopped c s) :=
  inferInstanceAs (Decidable ((cacheGet c s).isSome = true ∨ s.defaultStop))

/-- The default value built by `CH.value`:
`perfect = int(self.mimics >= self.chests and self.chests >= 0)`. -/
def defaultValue (s : CH) : CHValue :=
  ⟨0, if s.mimics ≥ s.chests ∧ 0 ≤ s.chests then 1 else 0, 0⟩

/-- Python `CH.value`: the cached value if present, else the default. -/
def valueOf (c : Cache) (s : CH) : CHValue :=
  match cacheGet c s with
  | some v => v
  | none => defaultValue s

/-- Exact value of the Python binary float literal `0.005`
(`ARMORY_RATE`): the nearest double, `5764607523034235 * 2 ^ (-60)`. -/
def ARMORY_RATE : ℚ := 5764607523034235 / 1152921504606846976

/-- Exact value of the Python float subtraction `1 - 0.005` (the `loot`
rate passed to `CHValue` in the loot branch): rounding
`1 - ARMORY_RATE` to a double gives `8962163258467287 * 2 ^ (-53)`. -/
def LOOT_RATE : ℚ := 8962163258467287 / 9007199254740992

/-- The guard of the deterministic ad-saver shortcut in
`calculate_value`: `savers > 0` and `ad`, with one of the three
`return calculate_value(ch.next(SAVER))` conditions. -/
def detSaverCond (s : CH) : Prop :=
  0 < s.savers ∧ s.ad = true ∧
    ((s.chase = true ∧ 0 < s.doubles) ∨ (s.chase = false ∧ s.csaves ≤ 0) ∨ s.doublers ≤ 0)

instance (s : CH) : Decidable (detSaverCond s) :=
  inferInstanceAs (Decidable (0 < s.savers ∧ s.ad = true ∧
    ((s.chase = true ∧ 0 < s.doubles) ∨ (s.chase = false ∧ s.csaves ≤ 0) ∨ s.doublers ≤ 0)))

/-- Result of one solver run: the returned value, the memo cache after
the call, and two ghost observations — `ok` records that every
denominator used by the chance formulas during the call was positive,
and `calls` counts the invocations of the transition `CH.next`. -/
structure SOut where
  val : CHValue
  cache : Cache
  ok : Bool
  calls : ℕ
deriving DecidableEq

/-- Accumulate one probabilistic branch:
`value += ch.chance(k) * calculate_value(ch.next(k))`. -/
def branchAcc (q : ℚ) (v : CHValue) (ro : Option SOut) :
    Option (CHValue × Cache × Bool × ℕ) :=
  match ro with
  | none => none
  | some r => some (v.add (CHValue.smul q r.val), r.cache, r.ok, r.calls + 1)

/-- Positivity of the two denominators the chance formulas can use at a
state (ghost check; recorded at every node whose branches evaluate
chances). -/
def okDenom (s : CH) : Bool := decide (0 < s.chests ∧ 0 < s.effChests)

/-- Python `calculate_value`, with the memo dictionary threaded explicitly and
a fuel parameter.  The branch structure follows the Python source:
return on `stop`; the three deterministic ad-saver early returns (which
do **not** store the state in the cache); otherwise the probabilistic
saver (only when not `ad`), doubler, mimic and loot branches, the
immediate loot reward, and finally `CH.solved[ch] = value`. -/
def solveI : ℕ → Cache → CH → Option SOut
  | 0, _, _ => none
  | n + 1, c, s =>
    if stopped c s then some ⟨valueOf c s, c, true, 0⟩
    else if detSaverCond s then
      match solveI n c (s.next CHType.SAVER) with
      | none => none
      | some r => some ⟨r.val, r.cache, r.ok, r.calls + 1⟩
    else
      match (if 0 < s.savers ∧ s.ad = false then
               branchAcc (s.chance CHType.SAVER) (valueOf c s)
                 (solveI n c (s.next CHType.SAVER))
             else some (valueOf c s, c, true, 0)) with
      | none => none
      | some (v1, c1, ok1, k1) =>
        match (if 0 < s.doublers then
                 branchAcc (s.chance CHType.DOUBLER) v1
                   (solveI n c1 (s.next CHType.DOUBLER))
               else some (v1, c1, true, 0)) with
        | none => none
        | some (v2, c2, ok2, k2) =>
          match (if 0 < s.mimics ∧ (0 < s.saves ∨ 0 < s.csaves) then
                   branchAcc (s.chance CHType.MIMIC) v2
                     (solveI n c2 (s.next CHType.MIMIC))
                 else some (v2, c2, true, 0)) with
          | none => none
          | some (v3, c3, ok3, k3) =>
            let gain : ℚ := if 0 < s.doubles then 2 else 1
            let aRate : ℚ := if s.armory = true then ARMORY_RATE else 0
            let lRate : ℚ := if s.armory = true then LOOT_RATE else 1
            let v4 : CHValue :=
              v3.add (CHValue.smul (s.chance CHType.LOOT * gain) ⟨lRate, 0, aRate⟩)
            match solveI n c3 (s.next CHType.LOOT) with
            | none => none
            | some r =>
              let v5 : CHValue := v4.add (CHValue.smul (s.chance CHType.LOOT) r.val)
              some ⟨v5, cacheAdd r.cache s v5,
                    okDenom s && ok1 && ok2 && ok3 && r.ok,
                    k1 + k2 + k3 + r.calls + 1⟩

/-- Value component of an optional solver result. -/
def soutVal : Option SOut → CHValue
  | none => ⟨0, 0, 0⟩
  | some r => r.val

/-- Cache component of an optional solver result. -/
def soutCache : Option SOut → Cache
  | none => []
  | some r => r.cache

/-- Transition-call count of an optional solver result. -/
def soutCalls : Option SOut → ℕ
  | none => 0
  | some r => r.calls

/-! ### Basic facts about the embedding -/

/-- The transition always decrements `chests` by exactly one. -/
theorem next_chests (s : CH) (k : CHType) : (s.next k).chests = s.chests - 1 := by
  cases k <;> rfl

theorem not_stopped_facts {c : Cache} {s : CH} (h : ¬ stopped c s) :
    cacheGet c s = none ∧ s.mimics + s.savers + s.activeDoublers < s.chests ∧ 0 < s.chests := by
  rw [stopped, not_or] at h
  obtain ⟨h1, h2⟩ := h
  rw [CH.defaultStop, not_or] at h2
  refine ⟨?_, by omega, by omega⟩
  cases hg : cacheGet c s with
  | none => rfl
  | some v => exact absurd (by rw [hg]; rfl) h1

theorem valueOf_not_cached {c : Cache} {s : CH} (h : cacheGet c s = none) :
    valueOf c s = defaultValue s := by
  rw [valueOf, h]

/-- Characterization of one optional probabilistic branch of the solver. -/
theorem branch_opt_spec {P : Prop} [Decidable P] {q : ℚ} {v0 : CHValue} {ro : Option SOut}
    {c0 : Cache} {out : CHValue × Cache × Bool × ℕ}
    (h : (if P then branchAcc q v0 ro else some (v0, c0, true, 0)) = some out) :
    (¬ P ∧ out = (v0, c0, true, 0)) ∨
      (P ∧ ∃ r, ro = some r ∧
        out = (v0.add (CHValue.smul q r.val), r.cache, r.ok, r.calls + 1)) := by
  by_cases hP : P
  · right
    refine ⟨hP, ?_⟩
    rw [if_pos hP] at h
    cases ro with
    | none => exact absurd h (by simp [branchAcc])
    | some r =>
      refine ⟨r, rfl, ?_⟩
      have := Option.some.inj (by simpa [branchAcc] using h)
      exact this.symm
  · left
    rw [if_neg hP] at h
    exact ⟨hP, (Option.some.inj h).symm⟩

/-- An optional branch is `some` as soon as the recursive call it may make is. -/
theorem branch_opt_total {P : Prop} [Decidable P] {q : ℚ} {w : CHValue} {ro : Option SOut}
    {d : Cache} (h : P → ro.isSome = true) :
    (if P then branchAcc q w ro else some (w, d, true, 0)).isSome = true := by
  by_cases hP : P
  · rw [if_pos hP]
    obtain ⟨r, hr⟩ := Option.isSome_iff_exists.1 (h hP)
    rw [hr]
    rfl
  · rw [if_neg hP]
    rfl

/-- Totality of the solver: fuel exceeding the (integer) chest count
suffices, on any cache and any state. -/
theorem solveI_total : ∀ (n : ℕ) (c : Cache) (s : CH),
    s.chests.toNat < n → (solveI n c s).isSome = true := by
  intro n
  induction n with
  | zero => exact fun c s h => absurd h (by omega)
  | succ n IH =>
    intro c s h
    rw [solveI]
    by_cases hstop : stopped c s
    · rw [if_pos hstop]
      rfl
    · have hpos : 0 < s.chests := (not_stopped_facts hstop).2.2
      have hchild : ∀ k : CHType, (s.next k).chests.toNat < n := by
        intro k
        rw [next_chests]
        omega
      rw [if_neg hstop]
      by_cases hdet : detSaverCond s
      · rw [if_pos hdet]
        obtain ⟨r, hr⟩ := Option.isSome_iff_exists.1 (IH c _ (hchild CHType.SAVER))
        rw [hr]
        rfl
      · rw [if_neg hdet]
        obtain ⟨⟨v1, c1, ok1, k1⟩, e1⟩ := Option.isSome_iff_exists.1
          (branch_opt_total (P := 0 < s.savers ∧ s.ad = false) (d := c)
            (q := s.chance CHType.SAVER) (w := valueOf c s)
            (fun _ => IH c _ (hchild CHType.SAVER)))
        rw [e1]
        dsimp only
        obtain ⟨⟨v2, c2, ok2, k2⟩, e2⟩ := Option.isSome_iff_exists.1
          (branch_opt_total (P := 0 < s.doublers) (d := c1)
            (q := s.chance CHType.DOUBLER) (w := v1)
            (fun _ => IH c1 _ (hchild CHType.DOUBLER)))
        rw [e2]
        dsimp only
        obtain ⟨⟨v3, c3, ok3, k3⟩, e3⟩ := Option.isSome_iff_exists.1
          (branch_opt_total (P := 0 < s.mimics ∧ (0 < s.saves ∨ 0 < s.csaves)) (d := c2)
            (q := s.chance CHType.MIMIC) (w := v2)
            (fun _ => IH c2 _ (hchild CHType.MIMIC)))
        rw [e3]
        dsimp only
        obtain ⟨r, hr⟩ := Option.isSome_iff_exists.1 (IH c3 _ (hchild CHType.LOOT))
        rw [hr]
        rfl

/-! ### Invariants of the explored state space -/

/-- Initial-state hypothesis used by the spec: non-negative fields and
`chests >= mimics + savers + doublers`. -/
def InitState (s : CH) : Prop :=
  0 ≤ s.chests ∧ 0 ≤ s.mimics ∧ 0 ≤ s.savers ∧ 0 ≤ s.saves ∧ 0 ≤ s.csaves ∧
    0 ≤ s.doublers ∧ 0 ≤ s.doubles ∧ s.mimics + s.savers + s.doublers ≤ s.chests

/-- The inductive invariant maintained by the solver's recursion. -/
def SolverInv (s : CH) : Prop :=
  0 ≤ s.mimics ∧ 0 ≤ s.savers ∧ 0 ≤ s.saves ∧ 0 ≤ s.csaves ∧ 0 ≤ s.doublers ∧
    s.mimics + s.savers + s.activeDoublers ≤ s.chests

/-- The guard under which `calculate_value` recurses into `next k`
(the ad-saver shortcut recursion is covered by the `SAVER` guard). -/
def Guard (s : CH) : CHType → Prop
  | CHType.LOOT => True
  | CHType.MIMIC => 0 < s.mimics ∧ (0 < s.saves ∨ 0 < s.csaves)
  | CHType.SAVER => 0 < s.savers
  | CHType.DOUBLER => 0 < s.doublers

/-- States the solver can recurse into from `s`: reflexive-transitive
closure of guarded transitions out of non-stopping states. -/
inductive Reach (s : CH) : CH → Prop
  | refl : Reach s s
  | step {t : CH} (k : CHType) : Reach s t → ¬ t.defaultStop → Guard t k → Reach s (t.next k)

theorem init_inv {s : CH} (h : InitState s) : SolverInv s := by
  obtain ⟨h0, hm, hsv, hsa, hcs, hdb, h7, hb⟩ := h
  refine ⟨hm, hsv, hsa, hcs, hdb, ?_⟩
  rw [CH.activeDoublers]
  split_ifs <;> omega

/-- One guarded step out of a non-stopping state preserves the invariant. -/
theorem inv_step {s : CH} {k : CHType} (hSI : SolverInv s) (hns : ¬ s.defaultStop)
    (hg : Guard s k) : SolverInv (s.next k) := by
  rw [CH.defaultStop, not_or] at hns
  obtain ⟨hns1, hns2⟩ := hns
  obtain ⟨hm, hsv, hsa, hcs, hdb, hbound⟩ := hSI
  rw [CH.activeDoublers] at hns1 hbound
  cases k with
  | LOOT =>
    simp only [SolverInv, CH.next, CH.activeDoublers]
    split_ifs at hns1 hbound ⊢ <;> omega
  | MIMIC =>
    obtain ⟨hgm, hgs⟩ := hg
    simp only [SolverInv, CH.next, CH.activeDoublers]
    split_ifs at hns1 hbound ⊢ <;> omega
  | SAVER =>
    have hgs : 0 < s.savers := hg
    simp only [SolverInv, CH.next, CH.activeDoublers]
    split_ifs at hns1 hbound ⊢ <;> omega
  | DOUBLER =>
    have hgd : 0 < s.doublers := hg
    simp only [SolverInv, CH.next, CH.activeDoublers]
    split_ifs at hns1 hbound ⊢ <;> omega

theorem reach_inv {s t : CH} (hI : InitState s) (hR : Reach s t) : SolverInv t := by
  induction hR with
  | refl => exact init_inv hI
  | step k _ hns hg IH => exact inv_step IH hns hg

/-- At a state the solver expands, both denominators of the chance
formulas are positive. -/
theorem denom_pos {s : CH} (hInv : SolverInv s) (hns : ¬ s.defaultStop) :
    0 < s.chests ∧ 0 < s.effChests := by
  rw [CH.defaultStop, not_or, CH.activeDoublers] at hns
  obtain ⟨hm, hsv, hsa, hcs, hdb, hbound⟩ := hInv
  rw [CH.activeDoublers] at hbound
  rw [CH.effChests]
  split_ifs at * <;> omega

theorem okDenom_true {s : CH} (hInv : SolverInv s) (hns : ¬ s.defaultStop) :
    okDenom s = true := by
  rw [okDenom, decide_eq_true_eq]
  exact denom_pos hInv hns

/-- Inversion of the recursive (fall-through) case of the solver. -/
theorem solveI_split {n : ℕ} {c : Cache} {s : CH} {r : SOut}
    (hstop : ¬ stopped c s) (hdet : ¬ detSaverCond s)
    (h : solveI (n + 1) c s = some r) :
    ∃ (v1 v2 v3 : CHValue) (c1 c2 c3 : Cache) (ok1 ok2 ok3 : Bool) (k1 k2 k3 : ℕ)
      (rL : SOut),
      (if 0 < s.savers ∧ s.ad = false then
          branchAcc (s.chance CHType.SAVER) (valueOf c s) (solveI n c (s.next CHType.SAVER))
        else some (valueOf c s, c, true, 0)) = some (v1, c1, ok1, k1) ∧
      (if 0 < s.doublers then
          branchAcc (s.chance CHType.DOUBLER) v1 (solveI n c1 (s.next CHType.DOUBLER))
        else some (v1, c1, true, 0)) = some (v2, c2, ok2, k2) ∧
      (if 0 < s.mimics ∧ (0 < s.saves ∨ 0 < s.csaves) then
          branchAcc (s.chance CHType.MIMIC) v2 (solveI n c2 (s.next CHType.MIMIC))
        else some (v2, c2, true, 0)) = some (v3, c3, ok3, k3) ∧
      solveI n c3 (s.next CHType.LOOT) = some rL ∧
      r.val = (v3.add (CHValue.smul (s.chance CHType.LOOT * (if 0 < s.doubles then 2 else 1))
          ⟨(if s.armory = true then LOOT_RATE else 1), 0,
            (if s.armory = true then ARMORY_RATE else 0)⟩)).add
          (CHValue.smul (s.chance CHType.LOOT) rL.val) ∧
      r.cache = cacheAdd rL.cache s r.val ∧
      r.ok = (okDenom s && ok1 && ok2 && ok3 && rL.ok) ∧
      r.calls = k1 + k2 + k3 + rL.calls + 1 := by
  rw [solveI, if_neg hstop, if_neg hdet] at h
  cases e1 : (if 0 < s.savers ∧ s.ad = false then
      branchAcc (s.chance CHType.SAVER) (valueOf c s) (solveI n c (s.next CHType.SAVER))
    else some (valueOf c s, c, true, 0)) with
  | none => rw [e1] at h; exact Option.noConfusion h
  | some o1 =>
    obtain ⟨v1, c1, ok1, k1⟩ := o1
    rw [e1] at h
    dsimp only at h
    cases e2 : (if 0 < s.doublers then
        branchAcc (s.chance CHType.DOUBLER) v1 (solveI n c1 (s.next CHType.DOUBLER))
      else some (v1, c1, true, 0)) with
    | none => rw [e2] at h; exact Option.noConfusion h
    | some o2 =>
      obtain ⟨v2, c2, ok2, k2⟩ := o2
      rw [e2] at h
      dsimp only at h
      cases e3 : (if 0 < s.mimics ∧ (0 < s.saves ∨ 0 < s.csaves) then
          branchAcc (s.chance CHType.MIMIC) v2 (solveI n c2 (s.next CHType.MIMIC))
        else some (v2, c2, true, 0)) with
      | none => rw [e3] at h; exact Option.noConfusion h
      | some o3 =>
        obtain ⟨v3, c3, ok3, k3⟩ := o3
        rw [e3] at h
        dsimp only at h
        cases eL : solveI n c3 (s.next CHType.LOOT) with
        | none => rw [eL] at h; exact Option.noConfusion h
        | some rL =>
          rw [eL] at h
          dsimp only at h
          obtain rfl := (Option.some.inj h).symm
          exact ⟨v1, v2, v3, c1, c2, c3, ok1, ok2, ok3, k1, k2, k3, rL,
            rfl, e2, e3, eL, rfl, rfl, rfl, rfl⟩

/-- Every denominator check recorded during a solve from an
invariant-satisfying state passes. -/
theorem solveI_ok : ∀ (n : ℕ) (c : Cache) (s : CH) (r : SOut),
    SolverInv s → solveI n c s = some r → r.ok = true := by
  intro n
  induction n with
  | zero => intro c s r _ h; rw [solveI] at h; exact Option.noConfusion h
  | succ n IH =>
    intro c s r hSI h
    by_cases hstop : stopped c s
    · rw [solveI, if_pos hstop] at h
      rw [← Option.some.inj h]
    · have hns : ¬ s.defaultStop := fun hd => hstop (Or.inr hd)
      by_cases hdet : detSaverCond s
      · rw [solveI, if_neg hstop, if_pos hdet] at h
        cases eC : solveI n c (s.next CHType.SAVER) with
        | none => rw [eC] at h; exact Option.noConfusion h
        | some rc =>
          rw [eC] at h
          dsimp only at h
          rw [← Option.some.inj h]
          exact IH c _ rc (inv_step (k := CHType.SAVER) hSI hns hdet.1) eC
      · obtain ⟨v1, v2, v3, c1, c2, c3, ok1, ok2, ok3, k1, k2, k3, rL,
          e1, e2, e3, eL, hv, hc, hok, hk⟩ := solveI_split hstop hdet h
        have hok1 : ok1 = true := by
          rcases branch_opt_spec e1 with ⟨hP, hout⟩ | ⟨hP, r1, hr1, hout⟩
          · simp only [Prod.mk.injEq] at hout
            exact hout.2.2.1
          · simp only [Prod.mk.injEq] at hout
            rw [hout.2.2.1]
            exact IH c _ r1 (inv_step (k := CHType.SAVER) hSI hns hP.1) hr1
        have hok2 : ok2 = true := by
          rcases branch_opt_spec e2 with ⟨hP, hout⟩ | ⟨hP, r2, hr2, hout⟩
          · simp only [Prod.mk.injEq] at hout
            exact hout.2.2.1
          · simp only [Prod.mk.injEq] at hout
            rw [hout.2.2.1]
            exact IH c1 _ r2 (inv_step (k := CHType.DOUBLER) hSI hns hP) hr2
        have hok3 : ok3 = true := by
          rcases branch_opt_spec e3 with ⟨hP, hout⟩ | ⟨hP, r3, hr3, hout⟩
          · simp only [Prod.mk.injEq] at hout
            exact hout.2.2.1
          · simp only [Prod.mk.injEq] at hout
            rw [hout.2.2.1]
            exact IH c2 _ r3 (inv_step (k := CHType.MIMIC) hSI hns hP) hr3
        have hokL : rL.ok = true := IH c3 _ rL (inv_step (k := CHType.LOOT) hSI hns trivial) eL
        rw [hok, okDenom_true hSI hns, hok1, hok2, hok3, hokL]
        rfl

/-! ### Bounds on the perfect-hunt probability -/

/-- A cache all of whose stored values have `perfect` in `[0, 1]`. -/
def CacheGood (c : Cache) : Prop :=
  ∀ (s : CH) (v : CHValue), cacheGet c s = some v → 0 ≤ v.perfect ∧ v.perfect ≤ 1

theorem cacheGood_nil : CacheGood [] := by
  intro s v h
  rw [cacheGet] at h
  exact Option.noConfusion h

theorem cacheGood_add {c : Cache} {s : CH} {v : CHValue} (hc : CacheGood c)
    (hv : 0 ≤ v.perfect ∧ v.perfect ≤ 1) : CacheGood (cacheAdd c s v) := by
  intro t w h
  rw [cacheAdd, cacheGet] at h
  by_cases hst : s = t
  · rw [if_pos hst] at h
    rw [← Option.some.inj h]
    exact hv
  · rw [if_neg hst] at h
    exact hc t w h

theorem valueOf_perfect_bounds {c : Cache} {s : CH} (hc : CacheGood c) :
    0 ≤ (valueOf c s).perfect ∧ (valueOf c s).perfect ≤ 1 := by
  rw [valueOf]
  cases hcg : cacheGet c s with
  | none =>
    rw [defaultValue]
    dsimp only
    split_ifs <;> norm_num
  | some v => exact hc s v hcg

theorem stage_perfect_bound {e X num p v : ℚ} (he : 0 < e) (hX : 0 ≤ X) (hnum : 0 ≤ num)
    (hp0 : 0 ≤ p) (hp1 : p ≤ 1) (hv0 : 0 ≤ v) (hv : v ≤ X / e) :
    0 ≤ v + num / e * p ∧ v + num / e * p ≤ (X + num) / e := by
  have hq0 : 0 ≤ num / e := by positivity
  constructor
  · nlinarith
  · have h1 : num / e * p ≤ num / e := mul_le_of_le_one_right hq0 hp1
    have h2 : X / e + num / e = (X + num) / e := by ring
    linarith

/-- Combined bound/cache fact for one optional probabilistic branch. -/
theorem stage_spec {P : Prop} [inst : Decidable P] {q : ℚ} {v0 : CHValue} {ro : Option SOut}
    {cin : Cache} {out : CHValue × Cache × Bool × ℕ} {e X num : ℚ}
    (h : (if P then branchAcc q v0 ro else some (v0, cin, true, 0)) = some out)
    (he : 0 < e) (hX : 0 ≤ X) (hnum : 0 ≤ num)
    (hq : P → q = num / e)
    (hv0 : 0 ≤ v0.perfect ∧ v0.perfect ≤ X / e)
    (hcin : CacheGood cin)
    (hro : P → ∀ r, ro = some r →
      (0 ≤ r.val.perfect ∧ r.val.perfect ≤ 1) ∧ CacheGood r.cache) :
    (0 ≤ out.1.perfect ∧ out.1.perfect ≤ (X + num) / e) ∧ CacheGood out.2.1 := by
  rcases branch_opt_spec h with ⟨hP, hout⟩ | ⟨hP, r1, hr1, hout⟩
  · rw [hout]
    dsimp only
    refine ⟨⟨hv0.1, le_trans hv0.2 ?_⟩, hcin⟩
    rw [div_le_div_iff_of_pos_right he]
    linarith
  · rw [hout]
    dsimp only
    obtain ⟨⟨hp0, hp1⟩, hcg1⟩ := hro hP r1 hr1
    simp only [CHValue.add, CHValue.smul]
    rw [hq hP]
    exact ⟨stage_perfect_bound he hX hnum hp0 hp1 hv0.1 hv0.2, hcg1⟩

/-- The solver keeps the perfect-hunt probability in `[0, 1]` and
preserves cache goodness, from any invariant state and good cache. -/
theorem solveI_perfect : ∀ (n : ℕ) (c : Cache) (s : CH) (r : SOut),
    SolverInv s → CacheGood c → solveI n c s = some r →
    (0 ≤ r.val.perfect ∧ r.val.perfect ≤ 1) ∧ CacheGood r.cache := by
  intro n
  induction n with
  | zero => intro c s r _ _ h; rw [solveI] at h; exact Option.noConfusion h
  | succ n IH =>
    intro c s r hSI hcg h
    by_cases hstop : stopped c s
    · rw [solveI, if_pos hstop] at h
      obtain rfl := (Option.some.inj h).symm
      exact ⟨valueOf_perfect_bounds hcg, hcg⟩
    · have hns : ¬ s.defaultStop := fun hd => hstop (Or.inr hd)
      by_cases hdet : detSaverCond s
      · rw [solveI, if_neg hstop, if_pos hdet] at h
        cases eC : solveI n c (s.next CHType.SAVER) with
        | none => rw [eC] at h; exact Option.noConfusion h
        | some rc =>
          rw [eC] at h
          dsimp only at h
          obtain rfl := (Option.some.inj h).symm
          exact IH c _ rc (inv_step (k := CHType.SAVER) hSI hns hdet.1) hcg eC
      · obtain ⟨v1, v2, v3, c1, c2, c3, ok1, ok2, ok3, k1, k2, k3, rL,
          e1, e2, e3, eL, hv, hcch, hok, hk⟩ := solveI_split hstop hdet h
        obtain ⟨hcpos, hepos⟩ := denom_pos hSI hns
        have heQ : (0 : ℚ) < (s.effChests : ℚ) := by exact_mod_cast hepos
        have hm := hSI.1
        have hsv := hSI.2.1
        have haD0 : 0 ≤ s.activeDoublers := by
          rw [CH.activeDoublers]; split_ifs <;> omega
        have hns' := hns
        rw [CH.defaultStop, not_or] at hns'
        obtain ⟨hns1, hns2⟩ := hns'
        -- integer numerators and their facts
        have hnSZ : 0 ≤ (if 0 < s.savers ∧ s.ad = false then s.savers else 0) := by
          split_ifs <;> omega
        have hnLZ : 0 ≤ s.effChests - s.mimics -
            (if s.ad = true then 0 else s.savers) - s.activeDoublers := by
          rw [CH.effChests]; split_ifs <;> omega
        have hsumZ : (if 0 < s.savers ∧ s.ad = false then s.savers else 0) +
            s.activeDoublers + s.mimics +
            (s.effChests - s.mimics - (if s.ad = true then 0 else s.savers) -
              s.activeDoublers) ≤ s.effChests := by
          rw [CH.effChests]; split_ifs <;> simp_all <;> omega
        -- rational numerators
        have hnS0 : 0 ≤ ((if 0 < s.savers ∧ s.ad = false then s.savers else 0 : ℤ) : ℚ) := by
          exact_mod_cast hnSZ
        have hnD0 : 0 ≤ (s.activeDoublers : ℚ) := by exact_mod_cast haD0
        have hnM0 : 0 ≤ (s.mimics : ℚ) := by exact_mod_cast hm
        have hnL0 : 0 ≤ ((s.effChests - s.mimics -
            (if s.ad = true then 0 else s.savers) - s.activeDoublers : ℤ) : ℚ) := by
          exact_mod_cast hnLZ
        have hsumQ : ((if 0 < s.savers ∧ s.ad = false then s.savers else 0 : ℤ) : ℚ) +
            (s.activeDoublers : ℚ) + (s.mimics : ℚ) +
            ((s.effChests - s.mimics - (if s.ad = true then 0 else s.savers) -
              s.activeDoublers : ℤ) : ℚ) ≤ (s.effChests : ℚ) := by
          exact_mod_cast hsumZ
        -- the base value at a non-stopping state has perfect = 0
        have hv0 : (valueOf c s).perfect = 0 := by
          rw [valueOf_not_cached (not_stopped_facts hstop).1, defaultValue]
          dsimp only
          rw [if_neg]
          intro hcon
          omega
        have hstart : 0 ≤ (valueOf c s).perfect ∧
            (valueOf c s).perfect ≤ 0 / (s.effChests : ℚ) := by
          rw [hv0, zero_div]
          exact ⟨le_refl 0, le_refl 0⟩
        -- saver stage
        have hq1 : (0 < s.savers ∧ s.ad = false) → s.chance CHType.SAVER =
            ((if 0 < s.savers ∧ s.ad = false then s.savers else 0 : ℤ) : ℚ) /
              (s.effChests : ℚ) := by
          intro hP
          have hee : s.effChests = s.chests := by
            rw [CH.effChests, hP.2]
            simp
          rw [if_pos hP, CH.chance, hee]
        have S1 := stage_spec e1 heQ (le_refl 0) hnS0 hq1 hstart hcg
          (fun hP r1 hr1 => IH c _ r1 (inv_step (k := CHType.SAVER) hSI hns hP.1) hcg hr1)
        obtain ⟨⟨hA1, hB1⟩, hcg1⟩ := S1
        -- doubler stage
        have S2 := stage_spec e2 heQ (X := 0 + _) (by linarith) hnD0
          (fun _ => rfl) ⟨hA1, hB1⟩ hcg1
          (fun hP r2 hr2 => IH c1 _ r2 (inv_step (k := CHType.DOUBLER) hSI hns hP) hcg1 hr2)
        obtain ⟨⟨hA2, hB2⟩, hcg2⟩ := S2
        -- mimic stage
        have S3 := stage_spec e3 heQ (X := 0 + _ + _) (by linarith) hnM0
          (fun _ => rfl) ⟨hA2, hB2⟩ hcg2
          (fun hP r3 hr3 => IH c2 _ r3 (inv_step (k := CHType.MIMIC) hSI hns hP) hcg2 hr3)
        obtain ⟨⟨hA3, hB3⟩, hcg3⟩ := S3
        -- loot continuation
        obtain ⟨⟨hpl0, hpl1⟩, hcgL⟩ :=
          IH c3 _ rL (inv_step (k := CHType.LOOT) hSI hns trivial) hcg3 eL
        have hperf : r.val.perfect = v3.perfect +
            s.chance CHType.LOOT * rL.val.perfect := by
          rw [hv]
          simp [CHValue.add, CHValue.smul]
        have hqL : s.chance CHType.LOOT =
            ((s.effChests - s.mimics - (if s.ad = true then 0 else s.savers) -
              s.activeDoublers : ℤ) : ℚ) / (s.effChests : ℚ) := rfl
        have hfin := stage_perfect_bound heQ (X := 0 + _ + _ + _) (by linarith) hnL0
          hpl0 hpl1 hA3 hB3
        have hRB : 0 ≤ r.val.perfect ∧ r.val.perfect ≤ 1 := by
          rw [hperf, hqL]
          refine ⟨hfin.1, le_trans hfin.2 ?_⟩
          rw [div_le_one heQ]
          linarith
        exact ⟨hRB, by rw [hcch]; exact cacheGood_add hcgL hRB⟩

/-! ### Cache behaviour across calls -/

/-- A helper step for cache extension through one optional branch. -/
theorem stage_cache_extend {P : Prop} [inst : Decidable P] {q : ℚ} {v0 : CHValue}
    {ro : Option SOut} {cin : Cache} {out : CHValue × Cache × Bool × ℕ} {b : ℤ}
    (h : (if P then branchAcc q v0 ro else some (v0, cin, true, 0)) = some out)
    (hro : ∀ r, ro = some r → ∀ (t : CH) (v : CHValue),
      cacheGet r.cache t = some v → cacheGet cin t = some v ∨ t.chests ≤ b) :
    ∀ (t : CH) (v : CHValue),
      cacheGet out.2.1 t = some v → cacheGet cin t = some v ∨ t.chests ≤ b := by
  intro t v hg
  rcases branch_opt_spec h with ⟨hP, hout⟩ | ⟨hP, r1, hr1, hout⟩
  · rw [hout] at hg
    exact Or.inl hg
  · rw [hout] at hg
    exact hro r1 hr1 t v hg

/-- Any entry present after a call but not before it belongs to a state
with at most as many chests as the solved state. -/
theorem solveI_cache_extend : ∀ (n : ℕ) (c : Cache) (s : CH) (r : SOut),
    solveI n c s = some r → ∀ (t : CH) (v : CHValue),
      cacheGet r.cache t = some v → cacheGet c t = some v ∨ t.chests ≤ s.chests := by
  intro n
  induction n with
  | zero => intro c s r h; rw [solveI] at h; exact Option.noConfusion h
  | succ n IH =>
    intro c s r h t v hg
    by_cases hstop : stopped c s
    · rw [solveI, if_pos hstop] at h
      obtain rfl := (Option.some.inj h).symm
      exact Or.inl hg
    · by_cases hdet : detSaverCond s
      · rw [solveI, if_neg hstop, if_pos hdet] at h
        cases eC : solveI n c (s.next CHType.SAVER) with
        | none => rw [eC] at h; exact Option.noConfusion h
        | some rc =>
          rw [eC] at h
          dsimp only at h
          obtain rfl := (Option.some.inj h).symm
          rcases IH c _ rc eC t v hg with hold | hle
          · exact Or.inl hold
          · right
            rw [next_chests] at hle
            omega
      · obtain ⟨v1, v2, v3, c1, c2, c3, ok1, ok2, ok3, k1, k2, k3, rL,
          e1, e2, e3, eL, hv, hcch, hok, hk⟩ := solveI_split hstop hdet h
        have weaken : ∀ (u : CH) (cc : Cache) (rr : SOut) (kk : CHType),
            solveI n cc (s.next kk) = some rr →
            ∀ (t2 : CH) (v2 : CHValue), cacheGet rr.cache t2 = some v2 →
              cacheGet cc t2 = some v2 ∨ t2.chests ≤ s.chests := by
          intro u cc rr kk hrr t2 w hw
          rcases IH cc _ rr hrr t2 w hw with hold | hle
          · exact Or.inl hold
          · right
            rw [next_chests] at hle
            omega
        have H1 := stage_cache_extend (b := s.chests) e1
          (fun rr hrr => weaken s c rr CHType.SAVER hrr)
        have H2 := stage_cache_extend (b := s.chests) e2
          (fun rr hrr => weaken s c1 rr CHType.DOUBLER hrr)
        have H3 := stage_cache_extend (b := s.chests) e3
          (fun rr hrr => weaken s c2 rr CHType.MIMIC hrr)
        rw [hcch, cacheAdd, cacheGet] at hg
        by_cases hst : s = t
        · right
          rw [← hst]
        · rw [if_neg hst] at hg
          rcases weaken s c3 rL CHType.LOOT eL t v hg with hL | hle
          · rcases H3 t v hL with h3 | hle
            · rcases H2 t v h3 with h2 | hle
              · rcases H1 t v h2 with h1 | hle
                · exact Or.inl h1
                · exact Or.inr hle
              · exact Or.inr hle
            · exact Or.inr hle
          · exact Or.inr hle

/-- The value a call returns for its argument state agrees with the cache
entry for that state after the call, whenever one exists. -/
theorem solveI_returns_cached {n : ℕ} {c : Cache} {s : CH} {r : SOut}
    (h : solveI n c s = some r) :
    ∀ v, cacheGet r.cache s = some v → v = r.val := by
  intro v hv
  cases n with
  | zero => rw [solveI] at h; exact Option.noConfusion h
  | succ n =>
    by_cases hstop : stopped c s
    · rw [solveI, if_pos hstop] at h
      obtain rfl := (Option.some.inj h).symm
      rw [valueOf, hv]
    · have hnone : cacheGet c s = none := (not_stopped_facts hstop).1
      have hpos : 0 < s.chests := (not_stopped_facts hstop).2.2
      by_cases hdet : detSaverCond s
      · rw [solveI, if_neg hstop, if_pos hdet] at h
        cases eC : solveI n c (s.next CHType.SAVER) with
        | none => rw [eC] at h; exact Option.noConfusion h
        | some rc =>
          rw [eC] at h
          dsimp only at h
          obtain rfl := (Option.some.inj h).symm
          rcases solveI_cache_extend n c _ rc eC s v hv with hold | hle
          · rw [hnone] at hold
            exact Option.noConfusion hold
          · rw [next_chests] at hle
            omega
      · obtain ⟨v1, v2, v3, c1, c2, c3, ok1, ok2, ok3, k1, k2, k3, rL,
          e1, e2, e3, eL, hval, hcch, hok, hk⟩ := solveI_split hstop hdet h
        rw [hcch, cacheAdd, cacheGet, if_pos rfl] at hv
        exact (Option.some.inj hv).symm

/-! ### Conservation in the loot-only situation -/

/-- With no mimics, savers or doublers, no held doubles and the armory
mechanic off, the solver returns exactly `chests` loot and a certain
perfect hunt.  The cache hypothesis says every cached state has more
chests than `s` (trivially true of the empty cache). -/
theorem solveI_conserve : ∀ (n : ℕ) (c : Cache) (s : CH) (r : SOut),
    s.mimics = 0 → s.savers = 0 → s.doublers = 0 → s.doubles = 0 → s.armory = false →
    0 ≤ s.chests →
    (∀ (t : CH) (v : CHValue), cacheGet c t = some v → s.chests < t.chests) →
    solveI n c s = some r → r.val = ⟨(s.chests : ℚ), 1, 0⟩ := by
  intro n
  induction n with
  | zero => intro c s r _ _ _ _ _ _ _ h; rw [solveI] at h; exact Option.noConfusion h
  | succ n IH =>
    intro c s r hmi hsa hdo hdb har hch hcab h
    have hnone : cacheGet c s = none := by
      cases hcg : cacheGet c s with
      | none => rfl
      | some v => exact absurd (hcab s v hcg) (by omega)
    have haD : s.activeDoublers = 0 := by
      rw [CH.activeDoublers, if_neg]
      omega
    by_cases hstop : stopped c s
    · have hch0 : s.chests = 0 := by
        rcases hstop with hmem | hdef
        · rw [hnone] at hmem
          exact absurd hmem (by simp)
        · rcases hdef with h1 | h1 <;> omega
      rw [solveI, if_pos hstop] at h
      obtain rfl := (Option.some.inj h).symm
      show valueOf c s = _
      rw [valueOf, hnone, defaultValue, if_pos (by constructor <;> omega)]
      rw [hch0]
      norm_num
    · have hpos : 0 < s.chests := by
        rcases (not_stopped_facts hstop).2 with ⟨h1, h2⟩
        omega
      have hdet : ¬ detSaverCond s := by
        intro hd
        have := hd.1
        omega
      obtain ⟨v1, v2, v3, c1, c2, c3, ok1, ok2, ok3, k1, k2, k3, rL,
        e1, e2, e3, eL, hval, hcch, hok, hk⟩ := solveI_split hstop hdet h
      -- all three optional branches are skipped
      have hP1 : ¬ (0 < s.savers ∧ s.ad = false) := fun hp => by omega
      have hP2 : ¬ (0 < s.doublers) := by omega
      have hP3 : ¬ (0 < s.mimics ∧ (0 < s.saves ∨ 0 < s.csaves)) := fun hp => by omega
      rcases branch_opt_spec e1 with ⟨_, hout1⟩ | ⟨hp, _, _, _⟩
      swap
      · exact absurd hp hP1
      rcases branch_opt_spec e2 with ⟨_, hout2⟩ | ⟨hp, _, _, _⟩
      swap
      · exact absurd hp hP2
      rcases branch_opt_spec e3 with ⟨_, hout3⟩ | ⟨hp, _, _, _⟩
      swap
      · exact absurd hp hP3
      simp only [Prod.mk.injEq] at hout1 hout2 hout3
      obtain ⟨hv1, hc1, _, _⟩ := hout1
      obtain ⟨hv2, hc2, _, _⟩ := hout2
      obtain ⟨hv3, hc3, _, _⟩ := hout3
      -- compute the base value
      have hbase : valueOf c s = ⟨0, 0, 0⟩ := by
        rw [valueOf, hnone, defaultValue, if_neg]
        intro hcon
        omega
      -- the loot child keeps the shape
      have hnm : (s.next CHType.LOOT).mimics = 0 := by
        simp [CH.next, hmi]
      have hns2 : (s.next CHType.LOOT).savers = 0 := by
        simp [CH.next, hsa]
      have hnd : (s.next CHType.LOOT).doublers = 0 := by
        simp [CH.next, hdo]
      have hndb : (s.next CHType.LOOT).doubles = 0 := by
        simp [CH.next, hdb]
      have hna : (s.next CHType.LOOT).armory = false := by
        simp [CH.next, har]
      have hnc : (s.next CHType.LOOT).chests = s.chests - 1 := next_chests s CHType.LOOT
      have hrec := IH c3 _ rL hnm hns2 hnd hndb hna (by omega)
        (by
          intro t v hg
          rw [hc3, hc2, hc1] at hg
          have := hcab t v hg
          omega)
        eL
      -- the loot chance is one
      have hchQ : ((s.chests : ℤ) : ℚ) ≠ 0 := by
        exact_mod_cast (by omega : s.chests ≠ 0)
      have hqL : s.chance CHType.LOOT = 1 := by
        show ((s.effChests - s.mimics - (if s.ad = true then 0 else s.savers) -
          s.activeDoublers : ℤ) : ℚ) / (s.effChests : ℚ) = 1
        rw [CH.effChests, hmi, hsa, haD, ite_self]
        norm_num
        rw [div_self]
        exact hchQ
      -- assemble
      rw [hnc] at hrec
      rw [hval, hv3, hv2, hv1, hbase, hqL, hrec]
      simp only [har, hdb, CHValue.add, CHValue.smul, CHValue.mk.injEq]
      norm_num

/-! ### Concrete states used by witnesses and counterexamples -/

/-- One plain chest: `chests = 1`, everything else zero/off. -/
def witC1State : CH := ⟨1, 0, 0, 0, false, 0, 0, 0, false, false, false, false⟩

/-- A state on the deterministic ad-saver path: three chests, one saver,
`ad` on, nothing else. -/
def cexC1State : CH := ⟨3, 0, 1, 0, true, 0, 0, 0, false, false, false, false⟩

/-- A degenerate state with `chests = -1`. -/
def cexC2State : CH := ⟨-1, 0, 0, 0, false, 0, 0, 0, false, false, false, false⟩

/-- One chest with the armory mechanic enabled. -/
def cexC6State : CH := ⟨1, 0, 0, 0, false, 0, 0, 0, false, false, true, false⟩

/-- A state with both chance denominators nonzero. -/
def chanceState : CH := ⟨5, 1, 1, 0, true, 0, 1, 0, false, false, false, false⟩

/-- The first solver call on `witC1State` computed explicitly. -/
theorem firstCallOneChest : solveI 2 [] witC1State =
    some ⟨⟨1, 1, 0⟩, [(witC1State, ⟨1, 1, 0⟩)], true, 1⟩ := by
  norm_num [solveI, stopped, cacheGet, CH.defaultStop, CH.activeDoublers, detSaverCond,
    valueOf, defaultValue, CH.next, CH.chance, CH.effChests, branchAcc, CHValue.add,
    CHValue.smul, okDenom, cacheAdd, witC1State, LOOT_RATE, ARMORY_RATE]

/-! ### The claims -/

/-- C1 (counterexample): the claim that a second `solve(s)` call with the
warm cache never re-invokes the transition function fails: on
`cexC1State` the first call completes, yet the second call takes the
deterministic ad-saver shortcut again (that early return never cached
`cexC1State`) and so calls `next` once more. -/
theorem claim_C1_cex :
    (solveI 4 [] cexC1State).isSome = true ∧
      soutCalls (solveI 4 (soutCache (solveI 4 [] cexC1State)) cexC1State) ≠ 0 := by
  constructor
  · decide
  · decide

/-- C1 (amended): warm-cache idempotence holds for every state the cache
holds after a first completed call: the second call returns the
previously computed value, leaves the cache unchanged, and performs zero
transition-function invocations.  (States resolved through the
deterministic ad-saver shortcut are not cached by `calculate_value` and
are re-derived, as the counterexample shows.) -/
theorem claim_C1 (fuel0 fuel : ℕ) (c0 : Cache) (s : CH) (r : SOut)
    (h1 : solveI fuel0 c0 s = some r) (h2 : (cacheGet r.cache s).isSome = true)
    (h3 : 0 < fuel) :
    solveI fuel r.cache s = some ⟨r.val, r.cache, true, 0⟩ := by
  obtain ⟨v, hv⟩ := Option.isSome_iff_exists.1 h2
  obtain rfl : v = r.val := solveI_returns_cached h1 v hv
  obtain ⟨m, rfl⟩ : ∃ m, fuel = m + 1 := ⟨fuel - 1, by omega⟩
  have hstop : stopped r.cache s := Or.inl (by rw [hv]; rfl)
  rw [solveI, if_pos hstop, valueOf, hv]

theorem claim_C1_witness :
    solveI 2 [(witC1State, ⟨1, 1, 0⟩)] witC1State =
      some ⟨⟨1, 1, 0⟩, [(witC1State, ⟨1, 1, 0⟩)], true, 0⟩ :=
  claim_C1 2 2 [] witC1State ⟨⟨1, 1, 0⟩, [(witC1State, ⟨1, 1, 0⟩)], true, 1⟩
    firstCallOneChest (by decide) (by decide)

/-- C2 (counterexample): for `chests = -1`, `mimics = 0` the claim's
formula (`perfect = 1` iff `mimics >= chests`) predicts `1`, but
`CH.value` also requires `chests >= 0` and the solver returns `0`. -/
theorem claim_C2_cex :
    (soutVal (solveI 1 [] cexC2State)).perfect ≠
      (if cexC2State.mimics ≥ cexC2State.chests then (1 : ℚ) else 0) := by
  norm_num [solveI, stopped, cacheGet, CH.defaultStop, CH.activeDoublers, valueOf,
    defaultValue, soutVal, cexC2State]

/-- C2 (amended): for every State with `chests <= 0`, solved with an
empty cache, `solve` returns `loot = 0`, `armory = 0`, and `perfect`
equal to `1` if `mimics >= chests` **and** `chests >= 0`, else `0`. -/
theorem claim_C2 (s : CH) (fuel : ℕ) (h : s.chests ≤ 0) (hf : 0 < fuel) :
    solveI fuel [] s =
      some ⟨⟨0, if s.mimics ≥ s.chests ∧ 0 ≤ s.chests then 1 else 0, 0⟩, [], true, 0⟩ := by
  obtain ⟨m, rfl⟩ : ∃ m, fuel = m + 1 := ⟨fuel - 1, by omega⟩
  have hstop : stopped [] s := Or.inr (Or.inr h)
  rw [solveI, if_pos hstop, valueOf]
  rfl

theorem claim_C2_witness :
    solveI 1 [] cexC2State =
      some ⟨⟨0, if cexC2State.mimics ≥ cexC2State.chests ∧ 0 ≤ cexC2State.chests then 1
        else 0, 0⟩, [], true, 0⟩ :=
  claim_C2 cexC2State 1 (by decide) (by decide)

/-- C3: the chance model.  `chance(Saver)` divides by the raw `chests`
even when `ad` is set, while the mimic, doubler and loot chances divide
by `effectiveChests = chests - (savers if ad else 0)`, with
`activeDoublers = 1 if doublers > 0 else 0` and
`effectiveSavers = 0 if ad else savers` in the loot numerator. -/
theorem claim_C3 (s : CH) (h1 : (s.chests : ℚ) ≠ 0)
    (h2 : ((s.chests - (if s.ad = true then s.savers else 0) : ℤ) : ℚ) ≠ 0) :
    s.chance CHType.SAVER = (s.savers : ℚ) / (s.chests : ℚ) ∧
    s.chance CHType.MIMIC =
      (s.mimics : ℚ) / ((s.chests - (if s.ad = true then s.savers else 0) : ℤ) : ℚ) ∧
    s.chance CHType.DOUBLER =
      (if 0 < s.doublers then (1 : ℚ) else 0) /
        ((s.chests - (if s.ad = true then s.savers else 0) : ℤ) : ℚ) ∧
    s.chance CHType.LOOT =
      (((s.chests - (if s.ad = true then s.savers else 0) : ℤ) : ℚ) - (s.mimics : ℚ) -
          (if s.ad = true then (0 : ℚ) else (s.savers : ℚ)) -
          (if 0 < s.doublers then (1 : ℚ) else 0)) /
        ((s.chests - (if s.ad = true then s.savers else 0) : ℤ) : ℚ) := by
  refine ⟨rfl, rfl, ?_, ?_⟩
  · simp only [CH.chance, CH.activeDoublers, CH.effChests]
    split_ifs <;> norm_num
  · simp only [CH.chance, CH.activeDoublers, CH.effChests]
    split_ifs <;> push_cast <;> ring

theorem claim_C3_witness :
    chanceState.chance CHType.SAVER = (chanceState.savers : ℚ) / (chanceState.chests : ℚ) ∧
    chanceState.chance CHType.MIMIC = (chanceState.mimics : ℚ) /
      ((chanceState.chests - (if chanceState.ad = true then chanceState.savers else 0) : ℤ) : ℚ) ∧
    chanceState.chance CHType.DOUBLER = (if 0 < chanceState.doublers then (1 : ℚ) else 0) /
      ((chanceState.chests - (if chanceState.ad = true then chanceState.savers else 0) : ℤ) : ℚ) ∧
    chanceState.chance CHType.LOOT =
      (((chanceState.chests - (if chanceState.ad = true then chanceState.savers else 0) : ℤ) : ℚ) -
          (chanceState.mimics : ℚ) -
          (if chanceState.ad = true then (0 : ℚ) else (chanceState.savers : ℚ)) -
          (if 0 < chanceState.doublers then (1 : ℚ) else 0)) /
        ((chanceState.chests - (if chanceState.ad = true then chanceState.savers else 0) : ℤ) : ℚ) :=
  claim_C3 chanceState (by norm_num [chanceState]) (by norm_num [chanceState])

/-- C4: from an initial state with non-negative fields and
`chests >= mimics + savers + doublers`, every denominator used by a
chance formula during the solve is positive (the solver's ghost `ok`
flag, which conjoins `0 < chests ∧ 0 < effChests` at every expanded
node, comes back `true`). -/
theorem claim_C4 (fuel : ℕ) (c : Cache) (s : CH) (r : SOut)
    (hI : InitState s) (h : solveI fuel c s = some r) : r.ok = true :=
  solveI_ok fuel c s r (init_inv hI) h

theorem claim_C4_witness :
    (⟨⟨1, 1, 0⟩, [(witC1State, ⟨1, 1, 0⟩)], true, 1⟩ : SOut).ok = true :=
  claim_C4 2 [] witC1State ⟨⟨1, 1, 0⟩, [(witC1State, ⟨1, 1, 0⟩)], true, 1⟩
    (by constructor <;> decide) firstCallOneChest

/-- C5: the solver terminates whenever the fuel exceeds the chest count
(so recursion depth is bounded by the initial `chests`), every
transition decrements `chests` by exactly one, and the stop condition
fires once `chests <= 0`. -/
theorem claim_C5 (s : CH) (c : Cache) (fuel : ℕ) (k : CHType)
    (h : s.chests.toNat < fuel) :
    (solveI fuel c s).isSome = true ∧ (s.next k).chests = s.chests - 1 ∧
      (s.chests ≤ 0 → stopped c s) :=
  ⟨solveI_total fuel c s h, next_chests s k, fun h0 => Or.inr (Or.inr h0)⟩

theorem claim_C5_witness :
    (solveI 2 [] witC1State).isSome = true ∧
      (witC1State.next CHType.LOOT).chests = witC1State.chests - 1 ∧
      (witC1State.chests ≤ 0 → stopped [] witC1State) :=
  claim_C5 witC1State [] 2 CHType.LOOT (by decide)

/-- C6 (counterexample): with the armory mechanic on (the constructor's
default), a single loot chest yields `loot = LOOT_RATE < 1 = chests`,
so `solve` does not return `loot = chests` for every mimic-, saver- and
doubler-free state with arbitrary flags. -/
theorem claim_C6_cex :
    (soutVal (solveI 2 [] cexC6State)).loot ≠ (cexC6State.chests : ℚ) := by
  norm_num [solveI, stopped, cacheGet, CH.defaultStop, CH.activeDoublers, detSaverCond,
    valueOf, defaultValue, CH.next, CH.chance, CH.effChests, branchAcc, CHValue.add,
    CHValue.smul, okDenom, cacheAdd, soutVal, cexC6State, LOOT_RATE, ARMORY_RATE]

/-- C6 (amended): for every state with `mimics = savers = doublers = 0`,
additionally `doubles = 0`, the armory mechanic off and `chests >= 0`
(saves, csaves and the remaining flags arbitrary), `solve` returns
`perfect = 1` and `loot = chests` exactly. -/
theorem claim_C6 (fuel : ℕ) (s : CH) (r : SOut)
    (h1 : s.mimics = 0) (h2 : s.savers = 0) (h3 : s.doublers = 0) (h4 : s.doubles = 0)
    (h5 : s.armory = false) (h6 : 0 ≤ s.chests)
    (h : solveI fuel [] s = some r) :
    r.val.perfect = 1 ∧ r.val.loot = (s.chests : ℚ) := by
  have hres := solveI_conserve fuel [] s r h1 h2 h3 h4 h5 h6
    (by
      intro t v hg
      rw [cacheGet] at hg
      exact Option.noConfusion hg)
    h
  rw [hres]
  exact ⟨rfl, rfl⟩

theorem claim_C6_witness :
    (⟨⟨1, 1, 0⟩, [(witC1State, ⟨1, 1, 0⟩)], true, 1⟩ : SOut).val.perfect = 1 ∧
      (⟨⟨1, 1, 0⟩, [(witC1State, ⟨1, 1, 0⟩)], true, 1⟩ : SOut).val.loot =
        (witC1State.chests : ℚ) :=
  claim_C6 2 witC1State ⟨⟨1, 1, 0⟩, [(witC1State, ⟨1, 1, 0⟩)], true, 1⟩
    (by decide) (by decide) (by decide) (by decide) (by decide) (by decide)
    firstCallOneChest

/-- C7: for every state `t` the solver can reach from an initial state
with non-negative fields and `chests >= mimics + savers + doublers`, and
any cache whose stored values are themselves probabilities, the value
`solve` returns at `t` has its `perfect` component in `[0, 1]`. -/
theorem claim_C7 (s t : CH) (fuel : ℕ) (c : Cache) (r : SOut)
    (hI : InitState s) (hR : Reach s t) (hc : CacheGood c)
    (h : solveI fuel c t = some r) :
    0 ≤ r.val.perfect ∧ r.val.perfect ≤ 1 :=
  (solveI_perfect fuel c t r (reach_inv hI hR) hc h).1

theorem claim_C7_witness :
    0 ≤ (⟨⟨1, 1, 0⟩, [(witC1State, ⟨1, 1, 0⟩)], true, 1⟩ : SOut).val.perfect ∧
      (⟨⟨1, 1, 0⟩, [(witC1State, ⟨1, 1, 0⟩)], true, 1⟩ : SOut).val.perfect ≤ 1 :=
  claim_C7 witC1State witC1State 2 [] ⟨⟨1, 1, 0⟩, [(witC1State, ⟨1, 1, 0⟩)], true, 1⟩
    (by constructor <;> decide) Reach.refl cacheGood_nil firstCallOneChest

/-- C8: the loot-branch rates are **not** the exact decimals 0.005 and
0.995: `ARMORY_RATE = 0.005` is a binary float, so the solver adds the
immediate reward with `armoryRate = 5764607523034235 / 2 ^ 60` and
`lootRate = 8962163258467287 / 2 ^ 53` (the float value of `1 - 0.005`),
which differ from `1/200` and `199/200` and do not even sum to `1`. -/
theorem claim_C8 :
    (soutVal (solveI 2 [] cexC6State)).armory = ARMORY_RATE ∧
    (soutVal (solveI 2 [] cexC6State)).loot = LOOT_RATE ∧
    ARMORY_RATE ≠ 1 / 200 ∧ LOOT_RATE ≠ 199 / 200 ∧ ARMORY_RATE + LOOT_RATE ≠ 1 := by
  refine ⟨?_, ?_, by norm_num [ARMORY_RATE], by norm_num [LOOT_RATE],
    by norm_num [ARMORY_RATE, LOOT_RATE]⟩ <;>
    norm_num [solveI, stopped, cacheGet, CH.defaultStop, CH.activeDoublers, detSaverCond,
      valueOf, defaultValue, CH.next, CH.chance, CH.effChests, branchAcc, CHValue.add,
      CHValue.smul, okDenom, cacheAdd, soutVal, cexC6State, LOOT_RATE, ARMORY_RATE]

/-- C9: every state the solver recurses into from an initial state with
non-negative fields and `chests >= mimics + savers + doublers` has
non-negative `saves`, `csaves`, `mimics`, `savers`, `doublers` and
`chests`. -/
theorem claim_C9 (s t : CH) (hI : InitState s) (hR : Reach s t) :
    0 ≤ t.saves ∧ 0 ≤ t.csaves ∧ 0 ≤ t.mimics ∧ 0 ≤ t.savers ∧ 0 ≤ t.doublers ∧
      0 ≤ t.chests := by
  obtain ⟨hm, hsv, hsa, hcs, hdb, hb⟩ := reach_inv hI hR
  have haD0 : 0 ≤ t.activeDoublers := by
    rw [CH.activeDoublers]
    split_ifs <;> omega
  exact ⟨hsa, hcs, hm, hsv, hdb, by omega⟩

theorem claim_C9_witness :
    0 ≤ (witC1State.next CHType.LOOT).saves ∧
      0 ≤ (witC1State.next CHType.LOOT).csaves ∧
      0 ≤ (witC1State.next CHType.LOOT).mimics ∧
      0 ≤ (witC1State.next CHType.LOOT).savers ∧
      0 ≤ (witC1State.next CHType.LOOT).doublers ∧
      0 ≤ (witC1State.next CHType.LOOT).chests :=
  claim_C9 witC1State (witC1State.next CHType.LOOT) (by constructor <;> decide)
    (Reach.step CHType.LOOT Reach.refl (by decide) trivial)

/-- C10: the constructor forces `dd = true` and `perfect = false`
whenever more than one doubler is requested, and always sets `chase`
equal to the (possibly overridden) `perfect` flag. -/
theorem claim_C10 (chests mimics savers saves : ℤ) (ad : Bool)
    (csaves doublers doubles : ℤ) (dd perfect armory : Bool) :
    (CH.make chests mimics savers saves ad csaves doublers doubles dd perfect armory).chase =
      (CH.make chests mimics savers saves ad csaves doublers doubles dd perfect armory).perfect ∧
    (1 < doublers →
      (CH.make chests mimics savers saves ad csaves doublers doubles dd perfect armory).dd = true ∧
      (CH.make chests mimics savers saves ad csaves doublers doubles dd perfect armory).perfect =
        false) := by
  refine ⟨rfl, fun h => ?_⟩
  rw [CH.make]
  dsimp only
  rw [if_pos h, if_pos h]
  exact ⟨rfl, rfl⟩

theorem claim_C10_witness :
    (CH.make 30 4 0 0 false 0 2 0 false true true).chase =
      (CH.make 30 4 0 0 false 0 2 0 false true true).perfect ∧
    ((1 : ℤ) < 2 →
      (CH.make 30 4 0 0 false 0 2 0 false true true).dd = true ∧
      (CH.make 30 4 0 0 false 0 2 0 false true true).perfect = false) :=
  claim_C10 30 4 0 0 false 0 2 0 false true true
